import Mathlib

set_option maxHeartbeats 1000000

/-!
Shallow embedding of live-mongodb-fixtures (src/fixture.js) together with
proofs about the behaviour of its Fixture class: definition parsing and
validation, binding-name resolution, query construction, the load/get/clear
orchestration, and the serialization round trip.
-/

/-- Document values handled by the serializer.  Modelled from the spec: the
third-party EJSON serializer (mongodb-extjson) is not part of this
repository's source; the spec describes it as a portable text serialization
of ordered document lists that losslessly round-trips scalars, dates and
binary blobs beyond plain JSON.  This type is the document universe: null,
booleans, integers, strings, dates (millisecond timestamps), binary blobs,
arrays and ordered field mappings. -/
inductive EValue where
  | null
  | bool (b : Bool)
  | int (n : Int)
  | str (s : String)
  | date (ms : Int)
  | binary (bytes : List Nat)
  | arr (elems : List EValue)
  | obj (fields : List (String × EValue))

/-- Unary length-prefixed rendering of a natural number, terminated by a
semicolon. -/
def renderNat (n : Nat) : List Char :=
  List.replicate n '1' ++ [';']

/-- Rendering of an integer: optional sign followed by the magnitude. -/
def renderInt (i : Int) : List Char :=
  if i < 0 then '-' :: renderNat i.natAbs else renderNat i.toNat

/-- Rendering of a byte list, one length-encoded byte after another. -/
def renderBytes : List Nat → List Char
  | [] => []
  | b :: bs => renderNat b ++ renderBytes bs

mutual

/-- Modelled from the spec: textual serialization of one document value.
Each value starts with a tag character; strings are length-prefixed so the
format is self-delimiting, and dates and binary blobs keep their own tags so
the types survive the round trip. -/
def render : EValue → List Char
  | .null => ['z']
  | .bool true => ['t']
  | .bool false => ['f']
  | .int n => 'i' :: renderInt n
  | .str s => 's' :: (renderNat s.length ++ s.data)
  | .date ms => 'd' :: renderInt ms
  | .binary bytes => 'b' :: (renderNat bytes.length ++ renderBytes bytes)
  | .arr xs => 'a' :: (renderNat xs.length ++ renderList xs)
  | .obj fs => 'o' :: (renderNat fs.length ++ renderFields fs)

/-- Serialization of a list of values, one after another. -/
def renderList : List EValue → List Char
  | [] => []
  | x :: xs => render x ++ renderList xs

/-- Serialization of an ordered field list: length-prefixed key, then the
value. -/
def renderFields : List (String × EValue) → List Char
  | [] => []
  | f :: fs => (renderNat f.1.length ++ f.1.data) ++ (render f.2 ++ renderFields fs)

end

/-- Parse a unary-rendered natural number. -/
def parseNat : List Char → Option (Nat × List Char)
  | '1' :: rest =>
    match parseNat rest with
    | some (n, r) => some (n + 1, r)
    | none => none
  | ';' :: rest => some (0, rest)
  | _ => none

/-- Parse an integer (optional sign, then magnitude). -/
def parseInt (cs : List Char) : Option (Int × List Char) :=
  match cs with
  | '-' :: rest => (parseNat rest).map (fun p => (-(p.1 : Int), p.2))
  | _ => (parseNat cs).map (fun p => ((p.1 : Int), p.2))

/-- Take exactly `n` characters from the input. -/
def takeChars : Nat → List Char → Option (List Char × List Char)
  | 0, cs => some ([], cs)
  | _ + 1, [] => none
  | n + 1, c :: cs => (takeChars n cs).map (fun p => (c :: p.1, p.2))

/-- Parse exactly `n` unary-rendered naturals. -/
def parseNats : Nat → List Char → Option (List Nat × List Char)
  | 0, cs => some ([], cs)
  | n + 1, cs =>
    match parseNat cs with
    | none => none
    | some (b, r1) =>
      match parseNats n r1 with
      | none => none
      | some (bs, r2) => some (b :: bs, r2)

/-- Parse exactly `n` values using the supplied value parser. -/
def parseItemsAux (pv : List Char → Option (EValue × List Char)) :
    Nat → List Char → Option (List EValue × List Char)
  | 0, cs => some ([], cs)
  | n + 1, cs =>
    match pv cs with
    | none => none
    | some (v, r1) =>
      match parseItemsAux pv n r1 with
      | none => none
      | some (vs, r2) => some (v :: vs, r2)

/-- Parse exactly `n` key/value fields using the supplied value parser. -/
def parseFieldsAux (pv : List Char → Option (EValue × List Char)) :
    Nat → List Char → Option (List (String × EValue) × List Char)
  | 0, cs => some ([], cs)
  | n + 1, cs =>
    match parseNat cs with
    | none => none
    | some (kl, r1) =>
      match takeChars kl r1 with
      | none => none
      | some (kchars, r2) =>
        match pv r2 with
        | none => none
        | some (v, r3) =>
          match parseFieldsAux pv n r3 with
          | none => none
          | some (fs, r4) => some ((⟨kchars⟩, v) :: fs, r4)

/-- One layer of the value parser: dispatch on the tag character, delegating
nested values to `pv`. -/
def parseValStep (pv : List Char → Option (EValue × List Char))
    (cs : List Char) : Option (EValue × List Char) :=
  match cs with
  | 'z' :: rest => some (.null, rest)
  | 't' :: rest => some (.bool true, rest)
  | 'f' :: rest => some (.bool false, rest)
  | 'i' :: rest => (parseInt rest).map (fun p => (.int p.1, p.2))
  | 'd' :: rest => (parseInt rest).map (fun p => (.date p.1, p.2))
  | 's' :: rest =>
    match parseNat rest with
    | none => none
    | some (n, r1) =>
      match takeChars n r1 with
      | none => none
      | some (chars, r2) => some (.str ⟨chars⟩, r2)
  | 'b' :: rest =>
    match parseNat rest with
    | none => none
    | some (n, r1) =>
      match parseNats n r1 with
      | none => none
      | some (bs, r2) => some (.binary bs, r2)
  | 'a' :: rest =>
    match parseNat rest with
    | none => none
    | some (n, r1) =>
      match parseItemsAux pv n r1 with
      | none => none
      | some (xs, r2) => some (.arr xs, r2)
  | 'o' :: rest =>
    match parseNat rest with
    | none => none
    | some (n, r1) =>
      match parseFieldsAux pv n r1 with
      | none => none
      | some (fs, r2) => some (.obj fs, r2)
  | _ => none

/-- Fuelled value parser; the fuel bounds the nesting depth. -/
def parseVal : Nat → List Char → Option (EValue × List Char)
  | 0, _ => none
  | fuel + 1, cs => parseValStep (fun cs2 => parseVal fuel cs2) cs

mutual

/-- Nesting depth of a value; the fuel needed to parse it. -/
def depth : EValue → Nat
  | .arr xs => depthList xs + 1
  | .obj fs => depthFields fs + 1
  | _ => 1

def depthList : List EValue → Nat
  | [] => 0
  | x :: xs => max (depth x) (depthList xs)

def depthFields : List (String × EValue) → Nat
  | [] => 0
  | f :: fs => max (depth f.2) (depthFields fs)

end

theorem one_le_depth (v : EValue) : 1 ≤ depth v := by
  cases v <;> simp [depth]

theorem parseNat_renderNat (n : Nat) (rest : List Char) :
    parseNat (renderNat n ++ rest) = some (n, rest) := by
  induction n with
  | zero => simp [renderNat, parseNat]
  | succ m ih =>
    have h : renderNat (m + 1) ++ rest = '1' :: (renderNat m ++ rest) := by
      simp [renderNat, List.replicate_succ]
    rw [h, parseNat, ih]

theorem parseNat_head (n : Nat) (rest : List Char) :
    ∃ c r, renderNat n ++ rest = c :: r ∧ (c = '1' ∨ c = ';') := by
  cases n with
  | zero => exact ⟨';', rest, by simp [renderNat], Or.inr rfl⟩
  | succ m =>
    refine ⟨'1', List.replicate m '1' ++ [';'] ++ rest, ?_, Or.inl rfl⟩
    simp [renderNat, List.replicate_succ]

theorem parseInt_renderInt (i : Int) (rest : List Char) :
    parseInt (renderInt i ++ rest) = some (i, rest) := by
  by_cases hneg : i < 0
  · have h : renderInt i ++ rest = '-' :: (renderNat i.natAbs ++ rest) := by
      simp [renderInt, hneg]
    rw [h]
    show (parseNat (renderNat i.natAbs ++ rest)).map
      (fun p => (-(p.1 : Int), p.2)) = some (i, rest)
    rw [parseNat_renderNat]
    show some (-(i.natAbs : Int), rest) = some (i, rest)
    have h2 : -((i.natAbs : Int)) = i := by omega
    rw [h2]
  · obtain ⟨c, r, heq, hc⟩ := parseNat_head i.toNat rest
    have h : renderInt i ++ rest = c :: r := by
      rw [renderInt, if_neg hneg]; exact heq
    rw [h]
    have hred : parseInt (c :: r) =
        (parseNat (c :: r)).map (fun p => ((p.1 : Int), p.2)) := by
      rcases hc with h1 | h1 <;> subst h1 <;> rfl
    rw [hred, ← heq, parseNat_renderNat]
    show some (((i.toNat : Int)), rest) = some (i, rest)
    have h2 : ((i.toNat : Int)) = i := by omega
    rw [h2]

theorem takeChars_append (l rest : List Char) :
    takeChars l.length (l ++ rest) = some (l, rest) := by
  induction l with
  | nil => simp [takeChars]
  | cons c cs ih => simp [takeChars, ih]

theorem parseNats_renderBytes (bs : List Nat) (rest : List Char) :
    parseNats bs.length (renderBytes bs ++ rest) = some (bs, rest) := by
  induction bs generalizing rest with
  | nil => simp [renderBytes, parseNats]
  | cons b more ih =>
    show parseNats (more.length + 1) (renderNat b ++ renderBytes more ++ rest) = _
    rw [parseNats, List.append_assoc, parseNat_renderNat]
    simp [ih]

theorem takeChars_str (s : String) (rest : List Char) :
    takeChars s.length (s.data ++ rest) = some (s.data, rest) :=
  takeChars_append s.data rest

mutual

theorem render_parseVal : ∀ (v : EValue) (fuel : Nat), depth v ≤ fuel →
    ∀ rest, parseVal fuel (render v ++ rest) = some (v, rest)
  | v, 0, h, _ => absurd h (by have := one_le_depth v; omega)
  | .null, fuel + 1, _, rest => by
    simp [render, parseVal, parseValStep]
  | .bool true, fuel + 1, _, rest => by
    simp [render, parseVal, parseValStep]
  | .bool false, fuel + 1, _, rest => by
    simp [render, parseVal, parseValStep]
  | .int n, fuel + 1, _, rest => by
    simp [render, parseVal, parseValStep, parseInt_renderInt]
  | .date ms, fuel + 1, _, rest => by
    simp [render, parseVal, parseValStep, parseInt_renderInt]
  | .str s, fuel + 1, _, rest => by
    simp [render, parseVal, parseValStep, parseNat_renderNat, takeChars_str]
  | .binary bytes, fuel + 1, _, rest => by
    simp [render, parseVal, parseValStep, parseNat_renderNat,
      parseNats_renderBytes]
  | .arr xs, fuel + 1, h, rest => by
    have h2 : depthList xs ≤ fuel := by simp [depth] at h; omega
    simp [render, parseVal, parseValStep, parseNat_renderNat,
      renderList_parse xs fuel h2]
  | .obj fs, fuel + 1, h, rest => by
    have h2 : depthFields fs ≤ fuel := by simp [depth] at h; omega
    simp [render, parseVal, parseValStep, parseNat_renderNat,
      renderFields_parse fs fuel h2]

theorem renderList_parse : ∀ (xs : List EValue) (fuel : Nat),
    depthList xs ≤ fuel → ∀ rest,
    parseItemsAux (fun cs2 => parseVal fuel cs2) xs.length
      (renderList xs ++ rest) = some (xs, rest)
  | [], _, _, rest => by simp [renderList, parseItemsAux]
  | x :: xs, fuel, h, rest => by
    have hx : depth x ≤ fuel := by
      simp [depthList] at h; omega
    have hxs : depthList xs ≤ fuel := by
      simp [depthList] at h; omega
    simp [renderList, parseItemsAux, List.append_assoc,
      render_parseVal x fuel hx, renderList_parse xs fuel hxs]

theorem renderFields_parse : ∀ (fs : List (String × EValue)) (fuel : Nat),
    depthFields fs ≤ fuel → ∀ rest,
    parseFieldsAux (fun cs2 => parseVal fuel cs2) fs.length
      (renderFields fs ++ rest) = some (fs, rest)
  | [], _, _, rest => by simp [renderFields, parseFieldsAux]
  | f :: fs, fuel, h, rest => by
    have hf : depth f.2 ≤ fuel := by
      simp [depthFields] at h; omega
    have hfs : depthFields fs ≤ fuel := by
      simp [depthFields] at h; omega
    simp [renderFields, parseFieldsAux, List.append_assoc,
      parseNat_renderNat, takeChars_str,
      render_parseVal f.2 fuel hf, renderFields_parse fs fuel hfs]

end

mutual

theorem depth_le_render : ∀ v : EValue, depth v ≤ (render v).length
  | .null => by simp [depth, render]
  | .bool true => by simp [depth, render]
  | .bool false => by simp [depth, render]
  | .int n => by simp [depth, render]
  | .str s => by simp [depth, render]
  | .date ms => by simp [depth, render]
  | .binary bytes => by simp [depth, render]
  | .arr xs => by
    have h := depthList_le_render xs
    simp [depth, render, renderNat]
    omega
  | .obj fs => by
    have h := depthFields_le_render fs
    simp [depth, render, renderNat]
    omega

theorem depthList_le_render : ∀ xs : List EValue,
    depthList xs ≤ (renderList xs).length
  | [] => by simp [depthList, renderList]
  | x :: xs => by
    have h1 := depth_le_render x
    have h2 := depthList_le_render xs
    simp [depthList, renderList]
    omega

theorem depthFields_le_render : ∀ fs : List (String × EValue),
    depthFields fs ≤ (renderFields fs).length
  | [] => by simp [depthFields, renderFields]
  | f :: fs => by
    have h1 := depth_le_render f.2
    have h2 := depthFields_le_render fs
    simp [depthFields, renderFields]
    omega

end

/-- Modelled from the spec: `EJSON.stringify`, serializing one value to the
portable text format. -/
def EJSON.stringify (v : EValue) : String := ⟨render v⟩

/-- Modelled from the spec: `EJSON.parse`, reading one value back from the
portable text format; `none` models the SyntaxError thrown on malformed
content.  The whole input must be consumed. -/
def EJSON.parse (s : String) : Option EValue :=
  match parseVal (s.length + 1) s.data with
  | some (v, []) => some v
  | _ => none

theorem EJSON.parse_stringify (v : EValue) :
    EJSON.parse (EJSON.stringify v) = some v := by
  have h1 : depth v ≤ (render v).length + 1 :=
    le_trans (depth_le_render v) (by omega)
  have h2 := render_parseVal v ((render v).length + 1) h1 []
  rw [List.append_nil] at h2
  show (match parseVal ((render v).length + 1) (render v) with
    | some (w, []) => some w
    | _ => none) = some v
  rw [h2]

/-- lodash `_.toArray`, as used in `Fixture.loadDocs` (src/fixture.js:232):
an array maps to itself, a plain object to the list of its values in
iteration order, a string to its characters, anything else to the empty
list. -/
def Lodash.toArray : EValue → List EValue
  | .arr xs => xs
  | .obj fs => fs.map (fun f => f.2)
  | .str s => s.data.map (fun c => EValue.str ⟨[c]⟩)
  | _ => []

/-- A collection handle nested one level inside another collection
(`collection.collection` in `Fixture.parseName`). -/
structure InnerColl where
  _name : Option String
deriving Repr, DecidableEq

/-- An external collection capability as `Fixture` sees it: the descriptive
attributes `name`, `_name` and `collection._name` probed by `parseName`
(absent or empty-string attributes are falsy in JavaScript, modelled as
`none` respectively the empty string), and the presence of the `find`,
`remove` and `save` methods checked by `parse`. -/
structure Collection where
  name : Option String
  _name : Option String
  collection : Option InnerColl
  hasFind : Bool
  hasRemove : Bool
  hasSave : Bool
deriving Repr, DecidableEq

/-- JavaScript truthiness of a string-valued attribute: present and
non-empty. -/
def truthy : Option String → Bool
  | some s => !(s == "")
  | none => false

/-- A value of the `collections` option: either a single collection handle
or a list of handles (src/fixture.js:99-102 normalizes the former to a
one-element list). -/
inductive CollVal where
  | single (c : Collection)
  | list (cs : List Collection)
deriving Repr, DecidableEq

/-- `_.mapValues` normalization step from `Fixture.parse`: a non-array value
becomes a one-element array. -/
def normalizeVal : CollVal → List Collection
  | .single c => [c]
  | .list cs => cs

/-- One parsed fixture binding as pushed by `Fixture.parse`
(src/fixture.js:122-126): resolved name, query key and collection handle. -/
structure Binding where
  name : String
  key : String
  collection : Collection
deriving Repr, DecidableEq

/-- Constructor options of `Fixture` (name, collections mapping in iteration
order, keys, optional path). -/
structure Options where
  name : String
  collections : List (String × CollVal)
  keys : List String
  path : Option String
deriving Repr, DecidableEq

/-- The `Fixture` instance state after construction. -/
structure Fixture where
  name : String
  fixtures : List Binding
  keys : List String
  path : Option String
deriving Repr, DecidableEq

/-- `Fixture.parseName` (src/fixture.js:140-157): start from the fallback,
then successively overwrite with the fixture-prefixed `collection.name`,
`collection._name` and `collection.collection._name` whenever truthy, so
the *last* truthy attribute wins. -/
def Fixture.parseName (self : String) (collection : Collection)
    (name : String) : String :=
  let name1 := if truthy collection.name
    then self ++ "." ++ collection.name.getD "" else name
  let name2 := if truthy collection._name
    then self ++ "." ++ collection._name.getD "" else name1
  let name3 := match collection.collection with
    | some inner =>
      if truthy inner._name then self ++ "." ++ inner._name.getD "" else name2
    | none => name2
  name3

/-- The truthiness test `collection.collection && collection.collection._name`
from the last branch of `parseName`. -/
def nestedName (c : Collection) : Option String :=
  c.collection.bind (fun inner => inner._name)

/-- The assertion message `Fixture collection ${name} missing ${m} method`
raised by `Fixture.parse` when a collection lacks a required method. -/
def missingMsg (name m : String) : String :=
  "Fixture collection " ++ name ++ " missing " ++ m ++ " method"

/-- Validation of one collection inside `Fixture.parse`
(src/fixture.js:105-126): resolve the binding name, then assert the
`find`, `remove` and `save` methods in that order; the first missing method
raises an AssertionError naming the binding and the method. -/
def Fixture.checkCollection (fixtureName key : String) (i : Nat)
    (c : Collection) : Except String Binding :=
  let name := Fixture.parseName fixtureName c
    (fixtureName ++ "." ++ key ++ "[" ++ toString i ++ "]")
  if c.hasFind = false then
    Except.error (missingMsg name "find")
  else if c.hasRemove = false then
    Except.error (missingMsg name "remove")
  else if c.hasSave = false then
    Except.error (missingMsg name "save")
  else
    Except.ok { name := name, key := key, collection := c }

/-- The inner `_.each` loop of `Fixture.parse` over the collections of one
key, carrying the list index used in the fallback name. -/
def Fixture.parseCollections (fixtureName key : String) :
    Nat → List Collection → Except String (List Binding)
  | _, [] => Except.ok []
  | i, c :: cs =>
    match Fixture.checkCollection fixtureName key i c with
    | Except.error e => Except.error e
    | Except.ok b =>
      match Fixture.parseCollections fixtureName key (i + 1) cs with
      | Except.error e => Except.error e
      | Except.ok bs => Except.ok (b :: bs)

/-- `Fixture.parse` (src/fixture.js:94-135): normalize every value of the
collections mapping to a list, then walk the mapping in iteration order and
each list in position order, validating each collection and collecting one
binding per (key, collection) pair. -/
def Fixture.parse (fixtureName : String) :
    List (String × CollVal) → Except String (List Binding)
  | [] => Except.ok []
  | (key, v) :: rest =>
    match Fixture.parseCollections fixtureName key 0 (normalizeVal v) with
    | Except.error e => Except.error e
    | Except.ok bs =>
      match Fixture.parse fixtureName rest with
      | Except.error e => Except.error e
      | Except.ok more => Except.ok (bs ++ more)

/-- The `options.path || null` normalization in the constructor: an absent
or falsy (empty) path becomes null. -/
def jsOrNull : Option String → Option String
  | some s => if s == "" then none else some s
  | none => none

/-- The `Fixture` constructor (src/fixture.js:23-42): parse and validate the
collections eagerly; on failure the error escapes and no instance exists. -/
def Fixture.construct (options : Options) : Except String Fixture :=
  match Fixture.parse options.name options.collections with
  | Except.error e => Except.error e
  | Except.ok fixtures =>
    Except.ok { name := options.name, fixtures := fixtures,
                keys := options.keys, path := jsOrNull options.path }

/-- `Fixture.query` (src/fixture.js:295-297): the structured query hash
`\x7b[key]: \x7b$in: values\x7d\x7d`. -/
structure QueryHash where
  key : String
  «$in» : List String
deriving Repr, DecidableEq

/-- Build the query hash for a key and the fixture's key values. -/
def Fixture.query (key : String) (values : List String) : QueryHash :=
  { key := key, «$in» := values }

/-- MongoDB evaluation of the `$in` predicate on one document (a partial
map from field names to scalar values): the document matches when its value
at the key is one of the listed values. -/
def matchesQuery (q : QueryHash) (doc : String → Option String) : Bool :=
  match doc q.key with
  | some v => q.«$in».contains v
  | none => false

/-- Result of one asynchronous callback-style operation: `ok` is
`callback(null, a)`, `err` is `callback(error)`, and `crash` is an
exception thrown synchronously inside a callback, which never reaches the
caller's callback (the Node.js process dies with an uncaught exception). -/
inductive Outcome (α : Type) where
  | ok (a : α)
  | err (e : String)
  | crash (e : String)
deriving Repr, DecidableEq

/-- Whether an outcome is an uncaught exception. -/
def Outcome.isCrash {α : Type} : Outcome α → Bool
  | .crash _ => true
  | _ => false

/-- Whether an outcome delivered a result to the callback. -/
def Outcome.isOk {α : Type} : Outcome α → Bool
  | .ok _ => true
  | _ => false

/-- `async.parallel` over already-determined task results in the `Except`
error model: the first error aborts the join, otherwise all results are
collected in task order. -/
def parallelE {α : Type} : List (Except String α) → Except String (List α)
  | [] => Except.ok []
  | Except.error e :: _ => Except.error e
  | Except.ok a :: rest =>
    match parallelE rest with
    | Except.error e => Except.error e
    | Except.ok xs => Except.ok (a :: xs)

/-- `async.parallel` over tasks that may also crash: a crash kills the
process, an error aborts the join, otherwise results are collected. -/
def parallelO {α : Type} : List (Outcome α) → Outcome (List α)
  | [] => Outcome.ok []
  | Outcome.crash e :: _ => Outcome.crash e
  | Outcome.err e :: _ => Outcome.err e
  | Outcome.ok a :: rest =>
    match parallelO rest with
    | Outcome.crash e => Outcome.crash e
    | Outcome.err e => Outcome.err e
    | Outcome.ok xs => Outcome.ok (a :: xs)

/-- JavaScript `Array.prototype.reduce((a, b) => a + b)` without an initial
value: on an empty array it throws a TypeError (`none`); otherwise it folds
pairwise from the first element. -/
def jsReduceAdd : List Nat → Option Nat
  | [] => none
  | x :: xs => some (xs.foldl (fun a b => a + b) x)

/-- Message of the TypeError thrown by an empty reduce. -/
def reduceEmptyError : String :=
  "TypeError: Reduce of empty array with no initial value"

/-- Message of the SyntaxError thrown by `EJSON.parse` on malformed
content. -/
def ejsonSyntaxError : String := "SyntaxError: Unexpected token in EJSON"

/-- `Fixture.filename` (src/fixture.js:281-285): the fixture's path (or the
default `./test`) joined with the binding name and the `.ejson` suffix. -/
def Fixture.filename (self : Fixture) (name : String) : String :=
  (if truthy self.path then self.path.getD "" else "./test")
    ++ "/" ++ name ++ ".ejson"

/-- `Fixture.writeDocs` (src/fixture.js:260-268): serialize the documents,
write the file, and report the document count (or the write error) to the
callback. -/
def Fixture.writeDocs (docs : List EValue) (writeErr : Option String) :
    Outcome Nat :=
  match writeErr with
  | some e => Outcome.err e
  | none => Outcome.ok docs.length

/-- `Fixture.findDocs` (src/fixture.js:210-223): run `find`; an upstream
error goes to the callback, otherwise the documents are written out and
counted. -/
def Fixture.findDocs (findResult : Except String (List EValue))
    (writeErr : Option String) : Outcome Nat :=
  match findResult with
  | Except.error e => Outcome.err e
  | Except.ok docs => Fixture.writeDocs docs writeErr

/-- The document list `Fixture.loadDocs` extracts from one fixture file:
`EJSON.parse` then `_.toArray` (src/fixture.js:230-232). -/
def Fixture.readDocs (data : String) : Option (List EValue) :=
  (EJSON.parse data).map Lodash.toArray

/-- `Fixture.loadDocs` (src/fixture.js:228-251): a read error goes to the
callback; `EJSON.parse` runs bare inside the read callback, so malformed
content throws an uncaught SyntaxError (a crash, not a callback error); the
parsed value is coerced with `_.toArray` and each document is saved; the
first save error goes to the callback; otherwise the count of non-null save
results is reported. -/
def Fixture.loadDocs (file : Except String String)
    (save : EValue → Except String (Option EValue)) : Outcome Nat :=
  match file with
  | Except.error e => Outcome.err e
  | Except.ok data =>
    match EJSON.parse data with
    | none => Outcome.crash ejsonSyntaxError
    | some v =>
      let docs := Lodash.toArray v
      match parallelE (docs.map save) with
      | Except.error e => Outcome.err e
      | Except.ok results =>
        Outcome.ok ((results.filter (fun i => i.isSome)).length)

/-- Number of `save` calls `Fixture.loadDocs` issues for one file: one per
document extracted from the file, none when the read or parse fails. -/
def Fixture.loadSaveCalls (file : Except String String) : Nat :=
  match file with
  | Except.error _ => 0
  | Except.ok data =>
    match EJSON.parse data with
    | none => 0
    | some v => (Lodash.toArray v).length

/-- `Fixture.clearDocs` (src/fixture.js:273-276): `remove` reports its
acknowledgement (carrying the removed-count field `n`) straight to the
callback. -/
structure RemoveAck where
  n : Nat
deriving Repr, DecidableEq

def Fixture.clearDocs (removeResult : Except String RemoveAck) :
    Outcome RemoveAck :=
  match removeResult with
  | Except.error e => Outcome.err e
  | Except.ok a => Outcome.ok a

/-- `Fixture.load` (src/fixture.js:162-172): join the per-binding loaders,
propagate the first error, and reduce the per-binding counts pairwise —
the reduce has no initial value, so an empty binding list throws. -/
def Fixture.load (loaders : List (Outcome Nat)) : Outcome Nat :=
  match parallelO loaders with
  | Outcome.crash e => Outcome.crash e
  | Outcome.err e => Outcome.err e
  | Outcome.ok results =>
    match jsReduceAdd results with
    | none => Outcome.crash reduceEmptyError
    | some total => Outcome.ok total

/-- `Fixture.get` (src/fixture.js:177-187): same join-and-reduce over the
per-binding queries. -/
def Fixture.get (queries : List (Outcome Nat)) : Outcome Nat :=
  match parallelO queries with
  | Outcome.crash e => Outcome.crash e
  | Outcome.err e => Outcome.err e
  | Outcome.ok results =>
    match jsReduceAdd results with
    | none => Outcome.crash reduceEmptyError
    | some total => Outcome.ok total

/-- `Fixture.clear` (src/fixture.js:192-205): join the per-binding removes,
pluck the `n` field of every acknowledgement with `_.map(results, 'n')`,
and reduce pairwise — again with no initial value. -/
def Fixture.clear (queries : List (Outcome RemoveAck)) : Outcome Nat :=
  match parallelO queries with
  | Outcome.crash e => Outcome.crash e
  | Outcome.err e => Outcome.err e
  | Outcome.ok results =>
    match jsReduceAdd (results.map RemoveAck.n) with
    | none => Outcome.crash reduceEmptyError
    | some total => Outcome.ok total

/-- `load` dispatched over a fixture's bindings: one loader per binding, as
built by `_.map(this.fixtures, ...)`. -/
def Fixture.loadOn (self : Fixture) (loadBinding : Binding → Outcome Nat) :
    Outcome Nat :=
  Fixture.load (self.fixtures.map loadBinding)

/-- `get` dispatched over a fixture's bindings. -/
def Fixture.getOn (self : Fixture) (queryBinding : Binding → Outcome Nat) :
    Outcome Nat :=
  Fixture.get (self.fixtures.map queryBinding)

/-- `clear` dispatched over a fixture's bindings. -/
def Fixture.clearOn (self : Fixture)
    (removeBinding : Binding → Outcome RemoveAck) : Outcome Nat :=
  Fixture.clear (self.fixtures.map removeBinding)

theorem foldl_add_eq_sum (x : Nat) (xs : List Nat) :
    xs.foldl (fun a b => a + b) x = x + xs.sum := by
  induction xs generalizing x with
  | nil => simp
  | cons y ys ih => simp [List.foldl, ih]; omega

theorem jsReduceAdd_cons (a : Nat) (l : List Nat) :
    jsReduceAdd (a :: l) = some ((a :: l).sum) := by
  simp [jsReduceAdd, foldl_add_eq_sum]

theorem parallelO_clearDocs (removes : List (Except String RemoveAck)) :
    parallelO (removes.map Fixture.clearDocs) =
      match parallelE removes with
      | Except.error e => Outcome.err e
      | Except.ok xs => Outcome.ok xs := by
  induction removes with
  | nil => rfl
  | cons r rest ih =>
    cases r with
    | error e => rfl
    | ok a =>
      simp only [List.map_cons, Fixture.clearDocs, parallelO, parallelE, ih]
      cases parallelE rest <;> rfl

/-- An empty-binding fixture, as produced by a collections mapping with no
entries. -/
def emptyFixture : Fixture :=
  { name := "empty", fixtures := [], keys := ["k1"], path := none }

/-- C1 counterexample: a Fixture built from an empty collections mapping has
zero bindings, and `load`, `get` and `clear` on it do **not** resolve to 0 —
each one crashes with the TypeError thrown by reducing an empty array with
no initial value. -/
theorem C1_counterexample :
    Fixture.construct
        { name := "empty", collections := [], keys := ["k1"], path := none }
      = Except.ok emptyFixture
    ∧ Fixture.loadOn emptyFixture (fun _ => Outcome.ok 0)
      = Outcome.crash reduceEmptyError
    ∧ Fixture.getOn emptyFixture (fun _ => Outcome.ok 0)
      = Outcome.crash reduceEmptyError
    ∧ Fixture.clearOn emptyFixture (fun _ => Outcome.ok ⟨0⟩)
      = Outcome.crash reduceEmptyError
    ∧ (Fixture.loadOn emptyFixture (fun _ => Outcome.ok 0)).isOk = false
    ∧ (Fixture.getOn emptyFixture (fun _ => Outcome.ok 0)).isOk = false
    ∧ (Fixture.clearOn emptyFixture (fun _ => Outcome.ok ⟨0⟩)).isOk = false :=
  ⟨rfl, rfl, rfl, rfl, rfl, rfl, rfl⟩

/-- C1 (amended): for every Fixture whose binding list is empty, each of
`load`, `get` and `clear` faults on the empty pairwise reduction — the
aggregate is never delivered; the operation dies with the TypeError of an
empty reduce instead of resolving to 0. -/
theorem C1_amended_empty_bindings_crash (f : Fixture) (h : f.fixtures = [])
    (loadBinding queryBinding : Binding → Outcome Nat)
    (removeBinding : Binding → Outcome RemoveAck) :
    Fixture.loadOn f loadBinding = Outcome.crash reduceEmptyError
    ∧ Fixture.getOn f queryBinding = Outcome.crash reduceEmptyError
    ∧ Fixture.clearOn f removeBinding = Outcome.crash reduceEmptyError := by
  refine ⟨?_, ?_, ?_⟩ <;>
    simp [Fixture.loadOn, Fixture.getOn, Fixture.clearOn, h, Fixture.load,
      Fixture.get, Fixture.clear, parallelO, jsReduceAdd]

/-- Witness for C1: the amended statement applied to the concrete
empty-binding fixture. -/
theorem C1_witness :
    Fixture.loadOn emptyFixture (fun _ => Outcome.ok 3)
      = Outcome.crash reduceEmptyError
    ∧ Fixture.getOn emptyFixture (fun _ => Outcome.ok 3)
      = Outcome.crash reduceEmptyError
    ∧ Fixture.clearOn emptyFixture (fun _ => Outcome.ok ⟨3⟩)
      = Outcome.crash reduceEmptyError :=
  C1_amended_empty_bindings_crash emptyFixture rfl _ _ _

/-- A collection carrying both a public `name` and a private `_name`
attribute. -/
def collPub : Collection :=
  { name := some "pub", _name := some "priv", collection := none,
    hasFind := true, hasRemove := true, hasSave := true }

/-- A collection carrying all three descriptive attributes. -/
def collNested : Collection :=
  { name := some "pub", _name := some "priv",
    collection := some { _name := some "inner" },
    hasFind := true, hasRemove := true, hasSave := true }

/-- C2 counterexample: for a collection exposing both the public descriptive
attribute (`name = "pub"`) and the private one (`_name = "priv"`), the code
resolves to the *private* attribute, not the public one the claim puts
first — the later checks overwrite the earlier ones, so the claimed
priority order is reversed. -/
theorem C2_counterexample :
    Fixture.parseName "f" collPub "fallback" = "f.priv"
    ∧ (("f.priv" : String) == "f.pub") = false :=
  ⟨by decide, by decide⟩

/-- C2 (amended): resolution priority is the reverse of the claim, least to
most nested: the private attribute of the nested collection wins over the
collection's own private attribute, which wins over its public attribute,
and only when all three are falsy is the supplied fallback returned — and
the fallback is returned verbatim, without the fixture-name prefix (the
prefix is attached only to a discovered attribute; `parse` pre-prefixes the
fallback it supplies). -/
theorem C2_amended_reversed_priority (self fb : String) (c : Collection) :
    (truthy (nestedName c) = true →
      Fixture.parseName self c fb = self ++ "." ++ (nestedName c).getD "")
    ∧ (truthy (nestedName c) = false → truthy c._name = true →
      Fixture.parseName self c fb = self ++ "." ++ c._name.getD "")
    ∧ (truthy (nestedName c) = false → truthy c._name = false →
      truthy c.name = true →
      Fixture.parseName self c fb = self ++ "." ++ c.name.getD "")
    ∧ (truthy (nestedName c) = false → truthy c._name = false →
      truthy c.name = false →
      Fixture.parseName self c fb = fb) := by
  unfold Fixture.parseName nestedName
  cases hc : c.collection with
  | none =>
    refine ⟨?_, ?_, ?_, ?_⟩
    · intro h1; simp [truthy] at h1
    · intro _ h2; simp [h2]
    · intro _ h2 h3; simp [h2, h3]
    · intro _ h2 h3; simp [h2, h3]
  | some inner =>
    refine ⟨?_, ?_, ?_, ?_⟩
    · intro h1; simp [Option.bind] at h1; simp [h1]
    · intro h1 h2; simp [Option.bind] at h1; simp [h1, h2]
    · intro h1 h2 h3; simp [Option.bind] at h1; simp [h1, h2, h3]
    · intro h1 h2 h3; simp [Option.bind] at h1; simp [h1, h2, h3]

/-- Witness for C2: at a collection with all three attributes present, the
nested private attribute wins. -/
theorem C2_witness :
    Fixture.parseName "f" collNested "fallback" = "f" ++ "." ++ "inner" :=
  (C2_amended_reversed_priority "f" "fallback" collNested).1 (by decide)

/-- C3: whenever `clear` resolves, the resolved total is the sum of the `n`
fields reported by the per-binding remove acknowledgements. -/
theorem C3_clear_sums_reported_n (removes : List (Except String RemoveAck))
    (t : Nat)
    (h : Fixture.clear (removes.map Fixture.clearDocs) = Outcome.ok t) :
    ∃ acks : List RemoveAck, parallelE removes = Except.ok acks
      ∧ t = (acks.map RemoveAck.n).sum := by
  simp only [Fixture.clear] at h
  rw [parallelO_clearDocs] at h
  cases hp : parallelE removes with
  | error e => rw [hp] at h; simp at h
  | ok acks =>
    rw [hp] at h
    refine ⟨acks, rfl, ?_⟩
    cases acks with
    | nil => simp [jsReduceAdd] at h
    | cons a rest =>
      simp only [List.map_cons, jsReduceAdd_cons] at h
      simp at h
      simp [← h]

/-- Witness for C3: clear over two bindings whose removes report n = 2 and
n = 3 resolves to 5, the sum of the reported removed counts. -/
theorem C3_witness :
    Fixture.clear ([Except.ok ⟨2⟩, Except.ok ⟨3⟩].map Fixture.clearDocs)
      = Outcome.ok 5
    ∧ ∃ acks, parallelE [Except.ok (⟨2⟩ : RemoveAck), Except.ok ⟨3⟩]
        = Except.ok acks ∧ 5 = (acks.map RemoveAck.n).sum :=
  ⟨rfl, C3_clear_sums_reported_n [Except.ok ⟨2⟩, Except.ok ⟨3⟩] 5 rfl⟩

/-- C4: the query builder returns the structured set-membership hash binding
the field `key` to membership in `values`, and with an empty value list the
predicate matches no document. -/
theorem C4_query_shape_and_empty_matches_nothing (key : String)
    (values : List String) :
    (Fixture.query key values).key = key
    ∧ (Fixture.query key values).«$in» = values
    ∧ ∀ doc : String → Option String,
        matchesQuery (Fixture.query key []) doc = false := by
  refine ⟨rfl, rfl, ?_⟩
  intro doc
  unfold matchesQuery Fixture.query
  cases doc key <;> simp

/-- The file contents `Fixture.writeDocs` produces for a document list:
`EJSON.stringify(docs)` with `docs` an array (src/fixture.js:263). -/
def Fixture.writeDocsData (docs : List EValue) : String :=
  EJSON.stringify (EValue.arr docs)

/-- C5: reading a written fixture file back yields the original ordered
document list, for documents containing nested scalars, dates and binary
blobs — read after write is the identity. -/
theorem C5_read_write_roundtrip (docs : List EValue) :
    Fixture.readDocs (Fixture.writeDocsData docs) = some docs := by
  unfold Fixture.readDocs Fixture.writeDocsData
  rw [EJSON.parse_stringify]
  rfl

/-- C10: a file whose top-level serialized value is a mapping rather than a
list is not a parse error: `_.toArray` coerces it to the list of its values
in iteration order, those become the documents to save, and `loadDocs`
never crashes on such a file — only unreadable or unparsable content is an
error. -/
theorem C10_top_level_mapping_coerced (fields : List (String × EValue))
    (save : EValue → Except String (Option EValue)) :
    Fixture.readDocs (EJSON.stringify (EValue.obj fields))
        = some (fields.map (fun f => f.2))
    ∧ (Fixture.loadDocs (Except.ok (EJSON.stringify (EValue.obj fields)))
        save).isCrash = false := by
  constructor
  · unfold Fixture.readDocs
    rw [EJSON.parse_stringify]
    rfl
  · simp only [Fixture.loadDocs, EJSON.parse_stringify]
    split <;> rfl

/-- C8: evaluation of the error channels of `loadDocs` and `findDocs`.  A
missing file (`ENOENT`) and an upstream collection failure are returned to
the caller's callback verbatim, and the first error aborts the group.  But
a file that *reads* successfully with malformed content makes `EJSON.parse`
throw inside the `fs.readFile` callback: an uncaught crash — the caller's
callback is never invoked with that error, contradicting the claim. -/
theorem C8_error_channels :
    Fixture.loadDocs (Except.error "ENOENT")
        (fun _ => Except.ok (some EValue.null))
      = Outcome.err "ENOENT"
    ∧ Fixture.findDocs (Except.error "UpstreamError") none
      = Outcome.err "UpstreamError"
    ∧ Fixture.loadDocs (Except.ok "nonsense")
        (fun _ => Except.ok (some EValue.null))
      = Outcome.crash ejsonSyntaxError
    ∧ Fixture.load
        [Fixture.loadDocs (Except.error "ENOENT")
          (fun _ => Except.ok (some EValue.null)), Outcome.ok 4]
      = Outcome.err "ENOENT" :=
  ⟨rfl, rfl, rfl, rfl⟩

theorem checkCollection_ok (fn key : String) (i : Nat) (c : Collection)
    (b : Binding) (h : Fixture.checkCollection fn key i c = Except.ok b) :
    b.key = key ∧ b.collection = c
      ∧ c.hasFind = true ∧ c.hasRemove = true ∧ c.hasSave = true := by
  unfold Fixture.checkCollection at h
  split at h
  · simp at h
  · split at h
    · simp at h
    · split at h
      · simp at h
      · injection h with h2
        subst h2
        refine ⟨rfl, rfl, ?_, ?_, ?_⟩ <;> simp_all

theorem checkCollection_error (fn key : String) (i : Nat) (c : Collection)
    (e : String) (h : Fixture.checkCollection fn key i c = Except.error e) :
    ∃ nm m, m ∈ (["find", "remove", "save"] : List String)
      ∧ e = missingMsg nm m := by
  unfold Fixture.checkCollection at h
  split at h
  · injection h with h2
    exact ⟨_, "find", by simp, h2.symm⟩
  · split at h
    · injection h with h2
      exact ⟨_, "remove", by simp, h2.symm⟩
    · split at h
      · injection h with h2
        exact ⟨_, "save", by simp, h2.symm⟩
      · simp at h

theorem parseCollections_ok (fn key : String) :
    ∀ (cs : List Collection) (i : Nat) (bs : List Binding),
    Fixture.parseCollections fn key i cs = Except.ok bs →
    bs.map (fun b => (b.key, b.collection)) = cs.map (fun c => (key, c))
      ∧ ∀ c ∈ cs, c.hasFind = true ∧ c.hasRemove = true ∧ c.hasSave = true
  | [], i, bs, h => by
    unfold Fixture.parseCollections at h
    injection h with h2
    subst h2
    simp
  | c :: cs, i, bs, h => by
    unfold Fixture.parseCollections at h
    cases hc : Fixture.checkCollection fn key i c with
    | error e => rw [hc] at h; simp at h
    | ok b =>
      rw [hc] at h
      cases hr : Fixture.parseCollections fn key (i + 1) cs with
      | error e => rw [hr] at h; simp at h
      | ok more =>
        rw [hr] at h
        injection h with h2
        subst h2
        obtain ⟨hk, hcl, hf, hrm, hs⟩ := checkCollection_ok fn key i c b hc
        obtain ⟨ih1, ih2⟩ := parseCollections_ok fn key cs (i + 1) more hr
        constructor
        · simp [ih1, hk, hcl]
        · intro x hx
          rw [List.mem_cons] at hx
          rcases hx with hx | hx
          · subst hx; exact ⟨hf, hrm, hs⟩
          · exact ih2 x hx

theorem parseCollections_error (fn key : String) :
    ∀ (cs : List Collection) (i : Nat) (e : String),
    Fixture.parseCollections fn key i cs = Except.error e →
    ∃ nm m, m ∈ (["find", "remove", "save"] : List String)
      ∧ e = missingMsg nm m
  | [], i, e, h => by
    unfold Fixture.parseCollections at h
    simp at h
  | c :: cs, i, e, h => by
    unfold Fixture.parseCollections at h
    cases hc : Fixture.checkCollection fn key i c with
    | error e2 =>
      rw [hc] at h
      injection h with h2
      exact h2 ▸ checkCollection_error fn key i c e2 hc
    | ok b =>
      rw [hc] at h
      cases hr : Fixture.parseCollections fn key (i + 1) cs with
      | error e2 =>
        rw [hr] at h
        injection h with h2
        exact h2 ▸ parseCollections_error fn key cs (i + 1) e2 hr
      | ok more => rw [hr] at h; simp at h

theorem parse_ok_bindings (fn : String) :
    ∀ (entries : List (String × CollVal)) (bs : List Binding),
    Fixture.parse fn entries = Except.ok bs →
    bs.map (fun b => (b.key, b.collection))
      = (entries.map (fun p => (normalizeVal p.2).map (fun c => (p.1, c)))).flatten
      ∧ ∀ p ∈ entries, ∀ c ∈ normalizeVal p.2,
          c.hasFind = true ∧ c.hasRemove = true ∧ c.hasSave = true
  | [], bs, h => by
    unfold Fixture.parse at h
    injection h with h2
    subst h2
    simp
  | (key, v) :: rest, bs, h => by
    unfold Fixture.parse at h
    cases hc : Fixture.parseCollections fn key 0 (normalizeVal v) with
    | error e => rw [hc] at h; simp at h
    | ok bs1 =>
      rw [hc] at h
      cases hr : Fixture.parse fn rest with
      | error e => rw [hr] at h; simp at h
      | ok more =>
        rw [hr] at h
        injection h with h2
        subst h2
        obtain ⟨h1, h2m⟩ := parseCollections_ok fn key (normalizeVal v) 0 bs1 hc
        obtain ⟨ih1, ih2⟩ := parse_ok_bindings fn rest more hr
        constructor
        · simp [h1, ih1]
        · intro p hp c hcmem
          rw [List.mem_cons] at hp
          rcases hp with hp | hp
          · subst hp; exact h2m c hcmem
          · exact ih2 p hp c hcmem

theorem parse_error_shape (fn : String) :
    ∀ (entries : List (String × CollVal)) (e : String),
    Fixture.parse fn entries = Except.error e →
    ∃ nm m, m ∈ (["find", "remove", "save"] : List String)
      ∧ e = missingMsg nm m
  | [], e, h => by unfold Fixture.parse at h; simp at h
  | (key, v) :: rest, e, h => by
    unfold Fixture.parse at h
    cases hc : Fixture.parseCollections fn key 0 (normalizeVal v) with
    | error e2 =>
      rw [hc] at h
      injection h with h2
      exact h2 ▸ parseCollections_error fn key (normalizeVal v) 0 e2 hc
    | ok bs1 =>
      rw [hc] at h
      cases hr : Fixture.parse fn rest with
      | error e2 =>
        rw [hr] at h
        injection h with h2
        exact h2 ▸ parse_error_shape fn rest e2 hr
      | ok more => rw [hr] at h; simp at h

/-- C6: a successful parse of a collections mapping produces exactly one
Binding per (key, collection) pair, in iteration order of the mapping and
then position order within each (normalized) list, and therefore exactly
the sum of the per-key list sizes many bindings. -/
theorem C6_parse_one_binding_per_pair (fixtureName : String)
    (entries : List (String × CollVal)) (bs : List Binding)
    (h : Fixture.parse fixtureName entries = Except.ok bs) :
    bs.map (fun b => (b.key, b.collection))
      = (entries.map (fun p => (normalizeVal p.2).map (fun c => (p.1, c)))).flatten
    ∧ bs.length = (entries.map (fun p => (normalizeVal p.2).length)).sum := by
  obtain ⟨hmap, _⟩ := parse_ok_bindings fixtureName entries bs h
  refine ⟨hmap, ?_⟩
  have hlen : bs.length = (bs.map (fun b => (b.key, b.collection))).length := by
    simp
  rw [hlen, hmap, List.length_flatten]
  simp [Function.comp_def]

/-- A collection handle exposing all three required methods and no
descriptive attributes. -/
def goodColl : Collection :=
  { name := none, _name := none, collection := none,
    hasFind := true, hasRemove := true, hasSave := true }

/-- Witness for C6: a mapping with a two-element list under one key and a
single handle under another parses to three bindings in traversal order. -/
theorem C6_witness :
    ([⟨"f.a[0]", "a", goodColl⟩, ⟨"f.a[1]", "a", goodColl⟩,
        ⟨"f.b[0]", "b", goodColl⟩] : List Binding).map
        (fun b => (b.key, b.collection))
      = ([("a", CollVal.list [goodColl, goodColl]),
          ("b", CollVal.single goodColl)].map
          (fun p => (normalizeVal p.2).map (fun c => (p.1, c)))).flatten
    ∧ ([⟨"f.a[0]", "a", goodColl⟩, ⟨"f.a[1]", "a", goodColl⟩,
        ⟨"f.b[0]", "b", goodColl⟩] : List Binding).length
      = ([("a", CollVal.list [goodColl, goodColl]),
          ("b", CollVal.single goodColl)].map
          (fun p => (normalizeVal p.2).length)).sum :=
  C6_parse_one_binding_per_pair "f"
    [("a", CollVal.list [goodColl, goodColl]), ("b", CollVal.single goodColl)]
    [⟨"f.a[0]", "a", goodColl⟩, ⟨"f.a[1]", "a", goodColl⟩,
      ⟨"f.b[0]", "b", goodColl⟩] rfl

/-- C7: if any collection in the constructor input lacks one of the `find`,
`remove` or `save` methods, construction fails with the assertion message
naming a binding and the missing method, and no Fixture instance is
produced. -/
theorem C7_missing_method_fails_construction (options : Options)
    (h : ∃ p, p ∈ options.collections ∧ ∃ c, c ∈ normalizeVal p.2 ∧
      (c.hasFind = false ∨ c.hasRemove = false ∨ c.hasSave = false)) :
    ∃ e nm m, Fixture.construct options = Except.error e
      ∧ m ∈ (["find", "remove", "save"] : List String)
      ∧ e = missingMsg nm m
      ∧ ∀ f, Fixture.construct options ≠ Except.ok f := by
  cases hp : Fixture.parse options.name options.collections with
  | ok bs =>
    obtain ⟨p, hpm, c, hcm, hbad⟩ := h
    obtain ⟨_, hall⟩ := parse_ok_bindings options.name options.collections bs hp
    obtain ⟨hf, hrm, hs⟩ := hall p hpm c hcm
    rcases hbad with hb | hb | hb <;> simp_all
  | error e =>
    obtain ⟨nm, m, hm, hshape⟩ :=
      parse_error_shape options.name options.collections e hp
    refine ⟨e, nm, m, ?_, hm, hshape, ?_⟩
    · simp [Fixture.construct, hp]
    · intro f
      simp [Fixture.construct, hp]

/-- A collection handle missing its `save` method. -/
def badColl : Collection :=
  { name := some "users", _name := none, collection := none,
    hasFind := true, hasRemove := true, hasSave := false }

/-- Witness for C7: constructing with a collection that lacks `save` fails
with the assertion message `Fixture collection f.users missing save method`
and yields no instance. -/
theorem C7_witness :
    Fixture.construct
        { name := "f", collections := [("k", CollVal.single badColl)],
          keys := ["v1"], path := none }
      = Except.error (missingMsg "f.users" "save")
    ∧ ∃ e nm m, Fixture.construct
        { name := "f", collections := [("k", CollVal.single badColl)],
          keys := ["v1"], path := none }
      = Except.error e
      ∧ m ∈ (["find", "remove", "save"] : List String)
      ∧ e = missingMsg nm m
      ∧ ∀ f, Fixture.construct
          { name := "f", collections := [("k", CollVal.single badColl)],
            keys := ["v1"], path := none }
        ≠ Except.ok f :=
  ⟨rfl, C7_missing_method_fails_construction
    { name := "f", collections := [("k", CollVal.single badColl)],
      keys := ["v1"], path := none }
    ⟨("k", CollVal.single badColl), by simp, badColl, by simp [normalizeVal],
      Or.inr (Or.inr rfl)⟩⟩

theorem parallelE_all_some {save : EValue → Except String (Option EValue)}
    (hsave : ∀ d, ∃ a, save d = Except.ok (some a)) :
    ∀ docs : List EValue, ∃ rs : List (Option EValue),
      parallelE (docs.map save) = Except.ok rs
      ∧ rs.length = docs.length ∧ ∀ r ∈ rs, r.isSome = true
  | [] => ⟨[], rfl, rfl, by simp⟩
  | d :: ds => by
    obtain ⟨a, ha⟩ := hsave d
    obtain ⟨rs, h1, h2, h3⟩ := parallelE_all_some hsave ds
    refine ⟨some a :: rs, ?_, by simp [h2], ?_⟩
    · simp only [List.map_cons, ha, parallelE, h1]
    · intro r hr
      rw [List.mem_cons] at hr
      rcases hr with hr | hr
      · subst hr; rfl
      · exact h3 r hr

theorem loadDocs_writeData (docs : List EValue)
    (save : EValue → Except String (Option EValue))
    (hsave : ∀ d, ∃ a, save d = Except.ok (some a)) :
    Fixture.loadDocs (Except.ok (Fixture.writeDocsData docs)) save
      = Outcome.ok docs.length := by
  obtain ⟨rs, h1, h2, h3⟩ := parallelE_all_some hsave docs
  have hfilter : rs.filter (fun i => i.isSome) = rs :=
    List.filter_eq_self.mpr h3
  simp only [Fixture.loadDocs, Fixture.writeDocsData, EJSON.parse_stringify,
    Lodash.toArray, h1, hfilter, h2]

theorem loadSaveCalls_writeData (docs : List EValue) :
    Fixture.loadSaveCalls (Except.ok (Fixture.writeDocsData docs))
      = docs.length := by
  simp only [Fixture.loadSaveCalls, Fixture.writeDocsData,
    EJSON.parse_stringify, Lodash.toArray]

theorem parallelO_map_ok {α : Type} (l : List α) :
    parallelO (l.map Outcome.ok) = Outcome.ok l := by
  induction l with
  | nil => rfl
  | cons a rest ih => simp only [List.map_cons, parallelO, ih]

theorem load_map_ok (counts : List Nat) (h : counts ≠ []) :
    Fixture.load (counts.map Outcome.ok) = Outcome.ok counts.sum := by
  cases counts with
  | nil => exact absurd rfl h
  | cons c cs =>
    simp only [Fixture.load, parallelO_map_ok, jsReduceAdd_cons]

/-- C9: for a load whose per-binding files hold the given document lists and
whose saves all acknowledge non-null, each binding contributes its count of
non-null save acknowledgements (= its document count), one save call is
issued per stored document, and load resolves to the sum across bindings. -/
theorem C9_load_sums_nonnull_saves (docLists : List (List EValue))
    (save : EValue → Except String (Option EValue))
    (hne : docLists ≠ [])
    (hsave : ∀ d, ∃ a, save d = Except.ok (some a)) :
    Fixture.load (docLists.map (fun docs =>
        Fixture.loadDocs (Except.ok (Fixture.writeDocsData docs)) save))
      = Outcome.ok ((docLists.map List.length).sum)
    ∧ (docLists.map (fun docs =>
        Fixture.loadSaveCalls (Except.ok (Fixture.writeDocsData docs)))).sum
      = (docLists.map List.length).sum := by
  have hmap : ∀ ls : List (List EValue),
      ls.map (fun docs =>
        Fixture.loadDocs (Except.ok (Fixture.writeDocsData docs)) save)
      = ls.map (fun docs => Outcome.ok docs.length) := by
    intro ls
    induction ls with
    | nil => rfl
    | cons x xs ih => simp [ih, loadDocs_writeData x save hsave]
  have hcalls : ∀ ls : List (List EValue),
      ls.map (fun docs =>
        Fixture.loadSaveCalls (Except.ok (Fixture.writeDocsData docs)))
      = ls.map List.length := by
    intro ls
    induction ls with
    | nil => rfl
    | cons x xs ih => simp [ih, loadSaveCalls_writeData x]
  constructor
  · rw [hmap docLists]
    have hcomp : docLists.map (fun docs => Outcome.ok docs.length)
        = (docLists.map List.length).map Outcome.ok := by
      rw [List.map_map]
      rfl
    rw [hcomp]
    apply load_map_ok
    cases docLists with
    | nil => exact absurd rfl hne
    | cons x xs => simp
  · rw [hcalls docLists]

/-- Witness for C9: two bindings holding 3 and 4 stored documents whose
saves all acknowledge non-null issue exactly 7 save calls and load resolves
to 7. -/
theorem C9_witness :
    Fixture.load ([[EValue.null, EValue.null, EValue.null],
        [EValue.null, EValue.null, EValue.null, EValue.null]].map
        (fun docs => Fixture.loadDocs
          (Except.ok (Fixture.writeDocsData docs))
          (fun _ => Except.ok (some EValue.null))))
      = Outcome.ok 7
    ∧ ([[EValue.null, EValue.null, EValue.null],
        [EValue.null, EValue.null, EValue.null, EValue.null]].map
        (fun docs => Fixture.loadSaveCalls
          (Except.ok (Fixture.writeDocsData docs)))).sum = 7 :=
  C9_load_sums_nonnull_saves
    [[EValue.null, EValue.null, EValue.null],
      [EValue.null, EValue.null, EValue.null, EValue.null]]
    (fun _ => Except.ok (some EValue.null))
    (by simp) (fun d => ⟨EValue.null, rfl⟩)
